import Mathlib

/-!
Verification of the Lintify repository: a shallow embedding of its three
source files (`src/utils/formatter.ts`, the README generator and the UI
shell) and proofs about the formatting and documentation-generation logic.

Strings are modelled as `List Char`; the JavaScript operations used by the
source (`split`, `trim`, `filter`, `join`, `repeat`, `match(...).length`,
`includes`, `endsWith`, `find`, object key/value maps) are modelled by the
corresponding list functions, with JS object insertion-order semantics
modelled by association lists.
-/

namespace Lintify

/-- Convert a Lean string literal to the `List Char` string model. -/
def toL (s : String) : List Char := s.toList

/-- Model of JS `String.prototype.trim`: drop leading and trailing
whitespace characters. -/
def jsTrim (l : List Char) : List Char :=
  List.rdropWhile Char.isWhitespace (List.dropWhile Char.isWhitespace l)

/-- Model of JS `unit.repeat(n)`: `n` concatenated copies of `unit`. -/
def jsRepeat (unit : List Char) (n : Nat) : List Char :=
  (List.replicate n unit).flatten

/-- Model of JS `Math.max(0, i)` for an integer, as a natural number
(the result is fed to `String.prototype.repeat`, which needs `n ≥ 0`). -/
def jsMax0 (i : Int) : Nat := (max 0 i).toNat

/-- Body of `formatJavaScript` (src/utils/formatter.ts, lines 10-26),
inside the `try`: split on newline, trim every line, drop lines that became
empty, indent each remaining line by two spaces per unit of
`count of open braces - count of close braces` (clamped at 0), rejoin.
`some` marks normal completion of the `try` block. -/
def formatJavaScriptTry (code : List Char) : Option (List Char) :=
  some (List.intercalate ['\n']
    ((((code.splitOn '\n').map jsTrim).filter (fun line => 0 < line.length)).map
      (fun line =>
        jsRepeat (toL "  ") (jsMax0 ((line.count '\x7b' : Int) - (line.count '\x7d' : Int)))
          ++ line)))

/-- `formatJavaScript` with its `try ... catch`: on an exception the
original `code` is returned. -/
def formatJavaScript (code : List Char) : List Char :=
  (formatJavaScriptTry code).getD code

/-- Body of `formatJava` (src/utils/formatter.ts, lines 28-43): identical
to `formatJavaScript` except for the four-space indent unit. -/
def formatJavaTry (code : List Char) : Option (List Char) :=
  some (List.intercalate ['\n']
    ((((code.splitOn '\n').map jsTrim).filter (fun line => 0 < line.length)).map
      (fun line =>
        jsRepeat (toL "    ") (jsMax0 ((line.count '\x7b' : Int) - (line.count '\x7d' : Int)))
          ++ line)))

/-- `formatJava` with its `try ... catch`. -/
def formatJava (code : List Char) : List Char :=
  (formatJavaTry code).getD code

/-- Body of `formatPython` (src/utils/formatter.ts, lines 45-60): the
indent level of a line is its count of colon characters. -/
def formatPythonTry (code : List Char) : Option (List Char) :=
  some (List.intercalate ['\n']
    ((((code.splitOn '\n').map jsTrim).filter (fun line => 0 < line.length)).map
      (fun line =>
        jsRepeat (toL "    ") (jsMax0 ((line.count ':' : Int))) ++ line)))

/-- `formatPython` with its `try ... catch`. -/
def formatPython (code : List Char) : List Char :=
  (formatPythonTry code).getD code

/-- Body of `formatC` (src/utils/formatter.ts, lines 62-76): identical to
`formatJava`. -/
def formatCTry (code : List Char) : Option (List Char) :=
  some (List.intercalate ['\n']
    ((((code.splitOn '\n').map jsTrim).filter (fun line => 0 < line.length)).map
      (fun line =>
        jsRepeat (toL "    ") (jsMax0 ((line.count '\x7b' : Int) - (line.count '\x7d' : Int)))
          ++ line)))

/-- `formatC` with its `try ... catch`. -/
def formatC (code : List Char) : List Char :=
  (formatCTry code).getD code

/-- Model of `filename.split('.').pop()?.toLowerCase() || ''` as used both
by `getFormatter` (formatter.ts line 79) and `getFileType`
(readme generator line 8): the lowercased last dot-separated segment
(`split` always returns a non-empty array, so `pop` never yields
`undefined`; an empty `pop` result stays empty under `|| ''`). -/
def getExt (filename : List Char) : List Char :=
  (((filename.splitOn '.').getLast?).getD []).map Char.toLower

/-- The five distinct formatting routines that `getFormatter` can return. -/
inductive FmtKind where
  | jsFmt | javaFmt | pyFmt | cFmt | identFmt
deriving DecidableEq

/-- The `formatters` lookup table of `getFormatter`
(src/utils/formatter.ts, lines 81-92). -/
def formattersLookup (ext : List Char) : Option FmtKind :=
  if ext = toL "js" then some FmtKind.jsFmt
  else if ext = toL "jsx" then some FmtKind.jsFmt
  else if ext = toL "ts" then some FmtKind.jsFmt
  else if ext = toL "tsx" then some FmtKind.jsFmt
  else if ext = toL "java" then some FmtKind.javaFmt
  else if ext = toL "py" then some FmtKind.pyFmt
  else if ext = toL "c" then some FmtKind.cFmt
  else if ext = toL "cpp" then some FmtKind.cFmt
  else if ext = toL "h" then some FmtKind.cFmt
  else if ext = toL "hpp" then some FmtKind.cFmt
  else none

/-- Interpretation of a formatter kind as the corresponding routine;
`identFmt` is the fallback `(code) => code`. -/
def applyFmt : FmtKind → List Char → List Char
  | FmtKind.jsFmt => formatJavaScript
  | FmtKind.javaFmt => formatJava
  | FmtKind.pyFmt => formatPython
  | FmtKind.cFmt => formatC
  | FmtKind.identFmt => fun code => code

/-- The `try`-block body of the routine a formatter kind stands for;
the identity fallback has no `try` but cannot fail either. -/
def applyFmtTry : FmtKind → List Char → Option (List Char)
  | FmtKind.jsFmt => formatJavaScriptTry
  | FmtKind.javaFmt => formatJavaTry
  | FmtKind.pyFmt => formatPythonTry
  | FmtKind.cFmt => formatCTry
  | FmtKind.identFmt => fun code => some code

/-- `getFormatter` (src/utils/formatter.ts, lines 78-95):
`formatters[ext] || ((code) => code)`. -/
def getFormatter (filename : List Char) : List Char → List Char :=
  applyFmt ((formattersLookup (getExt filename)).getD FmtKind.identFmt)

/-- The `FileInfo` record of both source files: basename, raw text,
archive-relative path, and the formatted text once the formatter has run. -/
structure FileInfo where
  name : List Char
  content : List Char
  path : List Char
  formatted : Option (List Char) := none
deriving DecidableEq

/-- One entry of a parsed ZIP archive as surfaced by the archive reader:
its full path, its directory flag, and its decoded text. The archive
reader itself is an external collaborator; its output is the input here. -/
structure ZipEntry where
  path : List Char
  dir : Bool
  content : List Char
deriving DecidableEq

/-- The record pushed for one non-directory archive entry by `formatCode`
(src/utils/formatter.ts, lines 105-118): the name is
`path.split('/').pop() || ''` and the formatter is selected from that
name. -/
def zipEntryRecord (path content : List Char) : FileInfo :=
  let name := ((path.splitOn '/').getLast?).getD []
  { name := name, content := content, path := path,
    formatted := some (getFormatter name content) }

/-- The ZIP branch of `formatCode` (src/utils/formatter.ts, lines 98-124):
every entry whose `dir` flag is false produces a record, in enumeration
order; directory entries are skipped. -/
def formatCodeZip (entries : List ZipEntry) : List FileInfo :=
  (entries.filter (fun e => !e.dir)).map (fun e => zipEntryRecord e.path e.content)

/-- The single-file branch of `formatCode` (src/utils/formatter.ts,
lines 125-137): one record whose `path` is the upload name itself. -/
def formatCodeSingle (name content : List Char) : List FileInfo :=
  [{ name := name, content := content, path := name,
     formatted := some (getFormatter name content) }]

/-- The `typeMap` lookup of `getFileType` (readme generator, lines 7-30). -/
def typeMapLookup (ext : List Char) : Option (List Char) :=
  if ext = toL "js" then some (toL "JavaScript")
  else if ext = toL "jsx" then some (toL "React JSX")
  else if ext = toL "ts" then some (toL "TypeScript")
  else if ext = toL "tsx" then some (toL "React TypeScript")
  else if ext = toL "css" then some (toL "CSS")
  else if ext = toL "scss" then some (toL "SCSS")
  else if ext = toL "html" then some (toL "HTML")
  else if ext = toL "json" then some (toL "JSON")
  else if ext = toL "md" then some (toL "Markdown")
  else if ext = toL "py" then some (toL "Python")
  else if ext = toL "java" then some (toL "Java")
  else if ext = toL "cpp" then some (toL "C++")
  else if ext = toL "c" then some (toL "C")
  else if ext = toL "go" then some (toL "Go")
  else if ext = toL "rs" then some (toL "Rust")
  else if ext = toL "php" then some (toL "PHP")
  else if ext = toL "rb" then some (toL "Ruby")
  else none

/-- `getFileType` (readme generator, lines 7-30): display label for a
filename, defaulting to `Plain text`. -/
def getFileType (filename : List Char) : List Char :=
  (typeMapLookup (getExt filename)).getD (toL "Plain text")

/-- A node of the directory tree built by `buildFileTree`: a JS object
holding optional `type`/`size` fields (set when the node was written as a
file leaf) together with its child keys, in insertion order. -/
inductive FNode where
  | mk (ty : Option (List Char × Nat)) (children : List (List Char × FNode))

/-- Model of JS object assignment `obj[k] = v` on an insertion-ordered
object: replace in place if the key exists, else append. -/
def setKey (cs : List (List Char × FNode)) (k : List Char) (v : FNode) :
    List (List Char × FNode) :=
  if cs.any (fun p => p.1 = k) then
    cs.map (fun p => if p.1 = k then (k, v) else p)
  else cs ++ [(k, v)]

/-- Model of JS object lookup `obj[k]`: `none` plays `undefined`. -/
def getKey (cs : List (List Char × FNode)) (k : List Char) : Option FNode :=
  (cs.find? (fun p => p.1 = k)).map (fun p => p.2)

/-- The per-file `forEach` walk of `buildFileTree` (readme generator,
lines 35-47): the final path segment overwrites its slot with a fresh
`{type, size}` leaf; intermediate segments keep an existing node
(`current[part] = current[part] || {}`) and descend into it. -/
def insertParts : List (List Char × FNode) → List (List Char) → Nat →
    List (List Char × FNode)
  | cs, [], _ => cs
  | cs, [part], size =>
      setKey cs part (FNode.mk (some (getFileType part, size)) [])
  | cs, part :: part' :: rest, size =>
      let sub :=
        match getKey cs part with
        | some (FNode.mk t ch) => FNode.mk t (insertParts ch (part' :: rest) size)
        | none => FNode.mk none (insertParts [] (part' :: rest) size)
      setKey cs part sub

/-- `buildFileTree` (readme generator, lines 32-50). -/
def buildFileTree (files : List FileInfo) : List (List Char × FNode) :=
  files.foldl (fun t f => insertParts t (f.path.splitOn '/') f.content.length) []

/-- `generateTreeMarkdown` (readme generator, lines 52-69): box-drawing
rendering; a node with a truthy `type` field is a leaf and its children,
if any, are not rendered. -/
def generateTreeMarkdown : List (List Char × FNode) → List Char → List Char
  | [], _ => []
  | (name, FNode.mk ty ch) :: rest, pre =>
      let isLast := rest.isEmpty
      let connector := if isLast then toL "└── " else toL "├── "
      let newPrefixStr := pre ++ (if isLast then toL "    " else toL "│   ")
      let tyStr := match ty with | some t => t.1 | none => []
      (pre ++ connector ++ name ++
        (if tyStr ≠ [] then toL " (" ++ tyStr ++ toL ")" ++ toL "\n" else toL "\n"))
      ++ (if tyStr = [] then generateTreeMarkdown ch newPrefixStr else [])
      ++ generateTreeMarkdown rest pre

/-- One step of `stats[type] = (stats[type] || 0) + 1` on the
insertion-ordered stats object. -/
def bumpStat (stats : List (List Char × Nat)) (ty : List Char) :
    List (List Char × Nat) :=
  if stats.any (fun p => p.1 = ty) then
    stats.map (fun p => if p.1 = ty then (p.1, p.2 + 1) else p)
  else stats ++ [(ty, 1)]

/-- `analyzeCodebase` (readme generator, lines 71-80): per-display-label
file counts keyed in first-seen order. -/
def analyzeCodebase (files : List FileInfo) : List (List Char × Nat) :=
  files.foldl (fun s f => bumpStat s (getFileType f.name)) []

/-- The `allContent` binding of `detectFrameworks` (readme generator,
line 84): every content lowercased, joined by single spaces. -/
def allContentLower (files : List FileInfo) : List Char :=
  List.intercalate (toL " ") (files.map (fun f => f.content.map Char.toLower))

/-- The `packageJson` binding of `detectFrameworks` (readme generator,
line 85): content of the first file literally named `package.json`,
else the empty string. -/
def packageJsonContent (files : List FileInfo) : List Char :=
  ((files.find? (fun f => f.name = toL "package.json")).map (fun f => f.content)).getD []

/-- `detectFrameworks` (readme generator, lines 82-97): seven fixed
substring checks, each pushing one fixed label. -/
def detectFrameworks (files : List FileInfo) : List (List Char) :=
  let allContent := allContentLower files
  let packageJson := packageJsonContent files
  (if (toL "\"react\"") <:+: packageJson then [toL "React"] else [])
  ++ (if (toL "\"vue\"") <:+: packageJson then [toL "Vue.js"] else [])
  ++ (if (toL "\"@angular/core\"") <:+: packageJson then [toL "Angular"] else [])
  ++ (if (toL "django") <:+: allContent then [toL "Django"] else [])
  ++ (if (toL "flask") <:+: allContent then [toL "Flask"] else [])
  ++ (if (toL "express") <:+: allContent then [toL "Express.js"] else [])
  ++ (if (toL "spring-boot") <:+: allContent then [toL "Spring Boot"] else [])

/-- The fixed priority list of `findMainFile` (readme generator,
lines 100-103). -/
def mainFilePatterns : List (List Char) :=
  [toL "index.ts", toL "index.js", toL "main.py", toL "app.py",
   toL "server.js", toL "app.js", toL "index.html"]

/-- `findMainFile` (readme generator, lines 99-111): for each pattern in
priority order, the first file whose lowercased name equals it. -/
def findMainFile (files : List FileInfo) : Option FileInfo :=
  mainFilePatterns.findSome? (fun pat =>
    files.find? (fun f => f.name.map Char.toLower = pat))

/-- Decimal rendering of a JS number interpolated into a template string. -/
def jsNatToString (n : Nat) : List Char := (Nat.repr n).toList

/-- The per-label statistics breakdown interpolated into the overview
section (readme generator, lines 128-130):
one `- label: n file(s)` line per stats entry. -/
def statsBreakdownMd (files : List FileInfo) : List Char :=
  List.intercalate (toL "\n")
    ((analyzeCodebase files).map (fun p =>
      toL "- " ++ p.1 ++ toL ": " ++ jsNatToString p.2 ++ toL " file"
        ++ (if 1 < p.2 then toL "s" else [])))

/-- The conditional frameworks section (readme generator, lines 132-134):
empty when no framework was detected. -/
def frameworksSectionMd (files : List FileInfo) : List Char :=
  let frameworks := detectFrameworks files
  if frameworks.length ≠ 0 then
    toL "## 🛠 Technologies Used\nThis project uses the following frameworks/libraries:\n"
      ++ List.intercalate (toL "\n") (frameworks.map (fun f => toL "- " ++ f))
  else []

/-- The main-entry-point slot (readme generator, lines 152-156): a
ten-line excerpt of the main file fenced with its bare extension, or the
fixed no-entry-point sentence. -/
def mainEntrySectionMd (files : List FileInfo) : List Char :=
  match findMainFile files with
  | some mainFile =>
      toL "The main entry point is `" ++ mainFile.path ++ toL "`:\n\n```"
        ++ (((mainFile.name.splitOn '.').getLast?).getD []) ++ toL "\n"
        ++ List.intercalate (toL "\n") ((mainFile.content.splitOn '\n').take 10)
        ++ (if 10 < (mainFile.content.splitOn '\n').length then toL "\n..." else [])
        ++ toL "\n```"
  | none => toL "No clear entry point detected."

/-- The per-top-level-directory explanation slot (readme generator,
lines 159-165): one block per root entry without a truthy `type` field. -/
def structureExplanationMd (files : List FileInfo) : List Char :=
  List.intercalate (toL "\n\n")
    (((buildFileTree files).map (fun e =>
        match e.2 with
        | FNode.mk none children =>
            toL "### /" ++ e.1 ++ toL "\nContains " ++ jsNatToString children.length
              ++ toL " files/directories for " ++ e.1.map Char.toLower
              ++ toL " related functionality."
        | FNode.mk (some _) _ => [])).filter (fun s => s ≠ []))

/-- The configuration-files slot (readme generator, lines 168-170). -/
def configFilesMd (files : List FileInfo) : List Char :=
  List.intercalate (toL "\n")
    ((files.filter (fun f =>
        (toL "config") <:+: f.name ∨ (toL ".rc") <:+: f.name ∨ (toL ".json") <:+ f.name)).map
      (fun f =>
        toL "- `" ++ f.path ++ toL "`: "
          ++ (if (toL "package.json") <:+: f.name then
                toL "Project dependencies and scripts"
              else toL "Configuration settings")))

/-- The three additional-notes bullet lines (readme generator,
lines 173-175). -/
def additionalNotesMd (files : List FileInfo) : List Char :=
  let frameworks := detectFrameworks files
  let stats := analyzeCodebase files
  toL "- The project uses a "
    ++ (if frameworks.length ≠ 0 then
          toL "modern stack with " ++ List.intercalate (toL ", ") frameworks
        else toL "custom stack")
    ++ toL "\n- File organization follows "
    ++ (if files.any (fun f => (toL "src/") <:+: f.path) then toL "a src-based"
        else toL "a flat")
    ++ toL " structure\n- "
    ++ (if ((stats.find? (fun p => p.1 = toL "TypeScript")).map (fun p => p.2)).getD 0 ≠ 0
        then toL "TypeScript is used for type safety"
        else toL "JavaScript is used as the primary language")

/-- `generateReadme` (readme generator, lines 113-189): the fixed Markdown
template with every interpolation slot filled in. -/
def generateReadme (files : List FileInfo) : List Char :=
  toL "# Project Documentation\n\n## 📁 Project Structure\n```\n"
  ++ generateTreeMarkdown (buildFileTree files) []
  ++ toL "\n```\n\n## 🔍 Project Overview\nThis project contains "
  ++ jsNatToString files.length
  ++ toL " files across various technologies:\n"
  ++ statsBreakdownMd files
  ++ toL "\n\n"
  ++ frameworksSectionMd files
  ++ toL "\n\n## 🚀 Getting Started\n1. Clone the repository\n2. Install dependencies:\n   ```bash\n   npm install\n   # or\n   yarn install\n   ```\n3. Run the project:\n   ```bash\n   npm start\n   # or\n   yarn start\n   ```\n\n## 📌 Main Entry Point\n"
  ++ mainEntrySectionMd files
  ++ toL "\n\n## 📚 Project Structure Explanation\n"
  ++ structureExplanationMd files
  ++ toL "\n\n## 🔧 Configuration Files\n"
  ++ configFilesMd files
  ++ toL "\n\n## 💡 Additional Notes\n"
  ++ additionalNotesMd files
  ++ toL "\n\n## 🤝 Contributing\n1. Fork the repository\n2. Create your feature branch\n3. Commit your changes\n4. Push to the branch\n5. Create a new Pull Request\n\n## 📝 License\nThis project is licensed under the terms specified in the LICENSE file, if present.\n"

/-- The lines of `code` that survive trimming, as the specification
describes them: split the input on newline, trim every line, discard the
lines that became empty. -/
def keptLines (code : List Char) : List (List Char) :=
  ((code.splitOn '\n').map jsTrim).filter (fun l => l ≠ [])

/-- The brace indent level as the specification words it: `max(0, count
of open braces in that line minus count of close braces in that line)`. -/
def specBraceLevel (l : List Char) : Nat :=
  jsMax0 ((l.count '\x7b' : Int) - (l.count '\x7d' : Int))

/-- The colon indent level as the specification words it: one indent unit
per colon character occurring in the line. -/
def specColonLevel (l : List Char) : Nat := l.count ':'

/-- The common formatting algorithm exactly as the specification describes
it: prefix each surviving line with `indentUnit` repeated `level` times
and join the surviving lines with newlines. -/
def specLineFormat (indentUnit : List Char) (level : List Char → Nat)
    (code : List Char) : List Char :=
  List.intercalate ['\n']
    ((keptLines code).map (fun l => jsRepeat indentUnit (level l) ++ l))

/-- The transform claimed by the specification for identity-formatting
extensions: whitespace-trim and blank-line removal only, with no
reindenting. -/
def trimDropOnly (code : List Char) : List Char :=
  List.intercalate ['\n'] (keptLines code)

/-- The three-file archive of the ingestion example: file entries
`src/a.py`, `src/b.py`, `README.md` and no directory-marker entries. -/
def exampleZipEntries : List ZipEntry :=
  [{ path := toL "src/a.py", dir := false, content := toL "print(1)" },
   { path := toL "src/b.py", dir := false, content := toL "print(2)" },
   { path := toL "README.md", dir := false, content := toL "hello" }]

/-- A `package.json` record whose content holds the literal substring
`"react"` twice. -/
def reactPackageJson : FileInfo :=
  { name := toL "package.json",
    content := toL "\"react\" and again \"react\"",
    path := toL "package.json" }

/-- A file list matching none of the seven framework signatures. -/
def plainFiles : List FileInfo :=
  [{ name := toL "notes.txt", content := toL "hello world", path := toL "notes.txt" }]

/-- A record named `main.py`. -/
def mainPyFile : FileInfo :=
  { name := toL "main.py", content := toL "print(0)", path := toL "main.py" }

/-- A record named `app.py`. -/
def appPyFile : FileInfo :=
  { name := toL "app.py", content := toL "print(9)", path := toL "app.py" }

/-! Helper lemmas about the string model. -/

/-- No piece produced by `splitOnP` contains an element satisfying the
splitting predicate. -/
theorem splitOnP_pieces_not {α : Type} (p : α → Bool) (l : List α) :
    ∀ s ∈ l.splitOnP p, ∀ a ∈ s, ¬ p a := by
  induction l with
  | nil =>
      intro s hs
      rw [List.splitOnP_nil] at hs
      rcases List.mem_singleton.mp hs with rfl
      intro a ha
      cases ha
  | cons x xs ih =>
      intro s hs
      rw [List.splitOnP_cons] at hs
      by_cases hp : p x
      · rw [if_pos hp] at hs
        rcases List.mem_cons.mp hs with rfl | hs'
        · intro a ha; cases ha
        · exact ih s hs'
      · rw [if_neg hp] at hs
        rcases hsp : xs.splitOnP p with _ | ⟨hd, tl⟩
        · exact absurd hsp (List.splitOnP_ne_nil p xs)
        · rw [hsp] at hs
          rcases List.mem_cons.mp hs with rfl | hs'
          · intro a ha
            rcases List.mem_cons.mp ha with rfl | ha'
            · exact hp
            · exact ih hd (by rw [hsp]; exact List.mem_cons_self hd tl) a ha'
          · exact ih s (by rw [hsp]; exact List.mem_cons_of_mem hd hs')

/-- The separator never occurs inside a piece produced by `splitOn`. -/
theorem not_mem_of_mem_splitOn {x : Char} {l s : List Char}
    (hs : s ∈ l.splitOn x) : x ∉ s := by
  intro hx
  have := splitOnP_pieces_not (fun a => a == x) l s hs x hx
  simp at this

/-- `jsTrim` only removes characters. -/
theorem jsTrim_sublist (l : List Char) : List.Sublist (jsTrim l) l := by
  have h1 : jsTrim l <+: List.dropWhile Char.isWhitespace l :=
    List.rdropWhile_prefix Char.isWhitespace (List.dropWhile Char.isWhitespace l)
  exact h1.sublist.trans (List.dropWhile_sublist Char.isWhitespace)

/-- Prepending whitespace does not change the trimmed line. -/
theorem jsTrim_ws_append (s l : List Char)
    (hs : ∀ c ∈ s, Char.isWhitespace c = true) : jsTrim (s ++ l) = jsTrim l := by
  show List.rdropWhile _ (List.dropWhile _ (s ++ l)) = _
  rw [List.dropWhile_append, List.dropWhile_eq_nil_iff.mpr hs]
  rfl

/-- A trimmed line has no leading whitespace left. -/
theorem dropWhile_jsTrim (l : List Char) :
    List.dropWhile Char.isWhitespace (jsTrim l) = jsTrim l := by
  rw [List.dropWhile_eq_self_iff]
  intro hl
  set m := List.dropWhile Char.isWhitespace l with hm
  have hpre : jsTrim l <+: m := List.rdropWhile_prefix Char.isWhitespace m
  have hl' : 0 < m.length := lt_of_lt_of_le hl hpre.length_le
  have hget : (jsTrim l).get ⟨0, hl⟩ = m.get ⟨0, hl'⟩ := hpre.get_eq hl
  rw [hget]
  exact List.dropWhile_get_zero_not Char.isWhitespace l hl'

/-- `jsTrim` is idempotent. -/
theorem jsTrim_idem (l : List Char) : jsTrim (jsTrim l) = jsTrim l := by
  show List.rdropWhile _ (List.dropWhile _ (jsTrim l)) = jsTrim l
  rw [dropWhile_jsTrim]
  exact List.rdropWhile_idempotent Char.isWhitespace _

/-- A nonempty trimmed line holds a non-whitespace character (its last). -/
theorem jsTrim_exists_not_ws (l : List Char) (h : jsTrim l ≠ []) :
    ∃ c ∈ jsTrim l, Char.isWhitespace c = false := by
  refine ⟨(jsTrim l).getLast h, List.getLast_mem h, ?_⟩
  have hlast := List.rdropWhile_last_not Char.isWhitespace
    (List.dropWhile Char.isWhitespace l) h
  simpa using hlast

/-- Characters of `jsRepeat unit n` come from `unit`. -/
theorem mem_jsRepeat {c : Char} {unit : List Char} {n : Nat}
    (h : c ∈ jsRepeat unit n) : c ∈ unit := by
  rw [jsRepeat, List.mem_flatten] at h
  obtain ⟨s, hs, hc⟩ := h
  rwa [List.eq_of_mem_replicate hs] at hc

/-- `Math.max(0, n)` on a natural number is that number. -/
theorem jsMax0_natCast (n : Nat) : jsMax0 (n : Int) = n := by
  simp [jsMax0]

/-- Every surviving line is nonempty, already trimmed, and free of
newlines. -/
theorem mem_keptLines {t code : List Char} (ht : t ∈ keptLines code) :
    t ≠ [] ∧ jsTrim t = t ∧ '\n' ∉ t := by
  rw [keptLines, List.mem_filter] at ht
  obtain ⟨htm, hne⟩ := ht
  rw [List.mem_map] at htm
  obtain ⟨s, hsm, rfl⟩ := htm
  have hnl : '\n' ∉ s := not_mem_of_mem_splitOn hsm
  refine ⟨by simpa using hne, jsTrim_idem s, fun hc => hnl ?_⟩
  exact List.Sublist.mem hc (jsTrim_sublist s)

/-- Splitting the joined output recovers the indented lines, provided at
least one line survived and neither the lines nor the indent unit contain
a newline. -/
theorem splitOn_specLineFormat (unit : List Char) (level : List Char → Nat)
    (hnl : '\n' ∉ unit) (code : List Char) (hne : keptLines code ≠ []) :
    (specLineFormat unit level code).splitOn '\n'
      = (keptLines code).map (fun l => jsRepeat unit (level l) ++ l) := by
  show (List.intercalate ['\n'] _).splitOn '\n' = _
  apply List.splitOn_intercalate
  · intro l hl
    rw [List.mem_map] at hl
    obtain ⟨y, hy, rfl⟩ := hl
    intro hmem
    rcases List.mem_append.mp hmem with hA | hB
    · exact hnl (mem_jsRepeat hA)
    · exact (mem_keptLines hy).2.2 hB
  · simpa using hne

/-- Re-splitting, trimming and filtering the formatted output yields the
original surviving lines: the added indentation is exactly what trimming
removes. -/
theorem keptLines_specLineFormat (unit : List Char) (level : List Char → Nat)
    (hws : ∀ c ∈ unit, Char.isWhitespace c = true) (hnl : '\n' ∉ unit)
    (code : List Char) :
    keptLines (specLineFormat unit level code) = keptLines code := by
  rcases hker : keptLines code with _ | ⟨t0, ts⟩
  · have h0 : specLineFormat unit level code = [] := by
      show List.intercalate ['\n'] ((keptLines code).map _) = []
      rw [hker]
      rfl
    rw [h0]
    rfl
  · have hne : keptLines code ≠ [] := by rw [hker]; exact List.cons_ne_nil _ _
    have hsplit := splitOn_specLineFormat unit level hnl code hne
    show (((specLineFormat unit level code).splitOn '\n').map jsTrim).filter _ = _
    rw [hsplit, List.map_map]
    have hmapid : (keptLines code).map (jsTrim ∘ fun l => jsRepeat unit (level l) ++ l)
        = (keptLines code).map id := by
      apply List.map_congr_left
      intro x hx
      show jsTrim (jsRepeat unit (level x) ++ x) = x
      rw [jsTrim_ws_append _ _ (fun c hc => hws c (mem_jsRepeat hc))]
      exact (mem_keptLines hx).2.1
    rw [hmapid, List.map_id, ← hker]
    exact List.filter_eq_self.mpr fun a ha => by simpa using (mem_keptLines ha).1

/-- The specification formatting algorithm is idempotent for any
whitespace, newline-free indent unit and any level function. -/
theorem specLineFormat_idem (unit : List Char) (level : List Char → Nat)
    (hws : ∀ c ∈ unit, Char.isWhitespace c = true) (hnl : '\n' ∉ unit)
    (code : List Char) :
    specLineFormat unit level (specLineFormat unit level code)
      = specLineFormat unit level code := by
  show List.intercalate ['\n']
      ((keptLines (specLineFormat unit level code)).map _) = _
  rw [keptLines_specLineFormat unit level hws hnl code]
  rfl

/-- Every line of the formatted output that consists solely of whitespace
characters is the empty line. -/
theorem specLineFormat_ws_lines (unit : List Char) (level : List Char → Nat)
    (hnl : '\n' ∉ unit) (code : List Char) :
    ∀ l ∈ (specLineFormat unit level code).splitOn '\n',
      (∀ c ∈ l, Char.isWhitespace c = true) → l = [] := by
  intro l hl hws'
  rcases hker : keptLines code with _ | ⟨t0, ts⟩
  · have h0 : specLineFormat unit level code = [] := by
      show List.intercalate ['\n'] ((keptLines code).map _) = []
      rw [hker]
      rfl
    rw [h0, List.splitOn_nil] at hl
    exact List.mem_singleton.mp hl
  · have hne : keptLines code ≠ [] := by rw [hker]; exact List.cons_ne_nil _ _
    rw [splitOn_specLineFormat unit level hnl code hne, List.mem_map] at hl
    obtain ⟨y, hy, rfl⟩ := hl
    obtain ⟨hy1, hy2, _⟩ := mem_keptLines hy
    have h' : jsTrim y ≠ [] := by rw [hy2]; exact hy1
    obtain ⟨c, hc, hcw⟩ := jsTrim_exists_not_ws y h'
    rw [hy2] at hc
    have := hws' c (List.mem_append_right _ hc)
    rw [this] at hcw
    cases hcw

/-- `formatJavaScript` computes exactly the specification algorithm with
the two-space unit and the per-line brace level. -/
theorem formatJavaScript_eq_spec (code : List Char) :
    formatJavaScript code = specLineFormat (toL "  ") specBraceLevel code := by
  show List.intercalate ['\n']
      ((((code.splitOn '\n').map jsTrim).filter (fun line => 0 < line.length)).map _)
    = List.intercalate ['\n']
      ((((code.splitOn '\n').map jsTrim).filter (fun l => l ≠ [])).map _)
  rw [List.filter_congr
    (fun a _ => decide_eq_decide.mpr List.length_pos : ∀ a ∈ (code.splitOn '\n').map jsTrim,
      (decide (0 < a.length)) = (decide (a ≠ [])))]
  apply congrArg
  apply List.map_congr_left
  intro a _
  simp only [specBraceLevel]

/-- `formatJava` computes exactly the specification algorithm with the
four-space unit and the per-line brace level. -/
theorem formatJava_eq_spec (code : List Char) :
    formatJava code = specLineFormat (toL "    ") specBraceLevel code := by
  show List.intercalate ['\n']
      ((((code.splitOn '\n').map jsTrim).filter (fun line => 0 < line.length)).map _)
    = List.intercalate ['\n']
      ((((code.splitOn '\n').map jsTrim).filter (fun l => l ≠ [])).map _)
  rw [List.filter_congr
    (fun a _ => decide_eq_decide.mpr List.length_pos : ∀ a ∈ (code.splitOn '\n').map jsTrim,
      (decide (0 < a.length)) = (decide (a ≠ [])))]
  apply congrArg
  apply List.map_congr_left
  intro a _
  simp only [specBraceLevel]

/-- `formatC` computes exactly the specification algorithm with the
four-space unit and the per-line brace level. -/
theorem formatC_eq_spec (code : List Char) :
    formatC code = specLineFormat (toL "    ") specBraceLevel code := by
  show List.intercalate ['\n']
      ((((code.splitOn '\n').map jsTrim).filter (fun line => 0 < line.length)).map _)
    = List.intercalate ['\n']
      ((((code.splitOn '\n').map jsTrim).filter (fun l => l ≠ [])).map _)
  rw [List.filter_congr
    (fun a _ => decide_eq_decide.mpr List.length_pos : ∀ a ∈ (code.splitOn '\n').map jsTrim,
      (decide (0 < a.length)) = (decide (a ≠ [])))]
  apply congrArg
  apply List.map_congr_left
  intro a _
  simp only [specBraceLevel]

/-- `formatPython` computes exactly the specification algorithm with the
four-space unit and the per-line colon count. -/
theorem formatPython_eq_spec (code : List Char) :
    formatPython code = specLineFormat (toL "    ") specColonLevel code := by
  show List.intercalate ['\n']
      ((((code.splitOn '\n').map jsTrim).filter (fun line => 0 < line.length)).map
        (fun line => jsRepeat (toL "    ") (jsMax0 ((line.count ':' : Int))) ++ line))
    = List.intercalate ['\n']
      ((((code.splitOn '\n').map jsTrim).filter (fun l => l ≠ [])).map
        (fun l => jsRepeat (toL "    ") (specColonLevel l) ++ l))
  rw [List.filter_congr
    (fun a _ => decide_eq_decide.mpr List.length_pos : ∀ a ∈ (code.splitOn '\n').map jsTrim,
      (decide (0 < a.length)) = (decide (a ≠ [])))]
  apply congrArg
  apply List.map_congr_left
  intro a _
  rw [show specColonLevel a = jsMax0 ((a.count ':' : Int)) from (jsMax0_natCast _).symm]

/-- Each formatter kind is its own `try` body with the exception swallowed
into the original input, and the body always completes. -/
theorem applyFmt_eq_try (k : FmtKind) (code : List Char) :
    applyFmt k code = (applyFmtTry k code).getD code
    ∧ (applyFmtTry k code).isSome = true := by
  cases k <;> exact ⟨rfl, rfl⟩

/-- Claim C1: on every input, `formatJavaScript` (two-space unit) and
`formatJava`/`formatC` (four-space unit) produce exactly the
trim/drop-empty/per-line-brace-indent/rejoin algorithm the specification
describes, and consequently no output line consists only of whitespace
(an all-whitespace output line must be the empty line). -/
theorem claim_C1_brace_families : ∀ code : List Char,
    (formatJavaScript code = specLineFormat (toL "  ") specBraceLevel code
      ∧ formatJava code = specLineFormat (toL "    ") specBraceLevel code
      ∧ formatC code = specLineFormat (toL "    ") specBraceLevel code)
    ∧ (formattersLookup (toL "js") = some FmtKind.jsFmt
      ∧ formattersLookup (toL "jsx") = some FmtKind.jsFmt
      ∧ formattersLookup (toL "ts") = some FmtKind.jsFmt
      ∧ formattersLookup (toL "tsx") = some FmtKind.jsFmt
      ∧ formattersLookup (toL "java") = some FmtKind.javaFmt
      ∧ formattersLookup (toL "c") = some FmtKind.cFmt
      ∧ formattersLookup (toL "cpp") = some FmtKind.cFmt
      ∧ formattersLookup (toL "h") = some FmtKind.cFmt
      ∧ formattersLookup (toL "hpp") = some FmtKind.cFmt)
    ∧ (∀ l ∈ (formatJavaScript code).splitOn '\n',
        (∀ c ∈ l, Char.isWhitespace c = true) → l = [])
    ∧ (∀ l ∈ (formatJava code).splitOn '\n',
        (∀ c ∈ l, Char.isWhitespace c = true) → l = [])
    ∧ (∀ l ∈ (formatC code).splitOn '\n',
        (∀ c ∈ l, Char.isWhitespace c = true) → l = []) := by
  intro code
  refine ⟨⟨formatJavaScript_eq_spec code, formatJava_eq_spec code, formatC_eq_spec code⟩,
    by decide, ?_, ?_, ?_⟩
  · rw [formatJavaScript_eq_spec code]
    exact specLineFormat_ws_lines _ _ (by decide) code
  · rw [formatJava_eq_spec code]
    exact specLineFormat_ws_lines _ _ (by decide) code
  · rw [formatC_eq_spec code]
    exact specLineFormat_ws_lines _ _ (by decide) code

/-- Witness for claim C1 at concrete inputs: the equalities at a small
program, and the whitespace-line property instantiated at the sole line of
the empty output. -/
theorem claim_C1_witness :
    formatJavaScript (toL "function f() \x7b\n   return 1;\n\x7d")
      = specLineFormat (toL "  ") specBraceLevel (toL "function f() \x7b\n   return 1;\n\x7d")
    ∧ ([] : List Char) = [] :=
  ⟨(claim_C1_brace_families (toL "function f() \x7b\n   return 1;\n\x7d")).1.1,
   (claim_C1_brace_families (toL "  ")).2.2.1 [] (by decide) (by decide)⟩

/-- Claim C2: `formatPython` is exactly the specification algorithm with
a four-space unit and one indent level per colon in the line; a line with
two colons gets eight spaces of indentation. -/
theorem claim_C2_python_family :
    (∀ code : List Char,
      formatPython code = specLineFormat (toL "    ") specColonLevel code)
    ∧ formattersLookup (toL "py") = some FmtKind.pyFmt
    ∧ formatPython (toL "case 1: x: y") = toL "        case 1: x: y" :=
  ⟨formatPython_eq_spec, by decide, by decide⟩

/-- Claim C3: for every filename and input, the routine selected by
`getFormatter` runs a `try` body that always completes (`isSome`), and its
result is that body's result with a failure falling back to the exact
original input. -/
theorem claim_C3_never_raises : ∀ filename code : List Char,
    (applyFmtTry ((formattersLookup (getExt filename)).getD FmtKind.identFmt) code).isSome
      = true
    ∧ getFormatter filename code
      = (applyFmtTry ((formattersLookup (getExt filename)).getD FmtKind.identFmt) code).getD
          code := by
  intro filename code
  exact ⟨(applyFmt_eq_try _ code).2, (applyFmt_eq_try _ code).1⟩

/-- Claim C10: each non-identity formatting family is idempotent. -/
theorem claim_C10_idempotent : ∀ code : List Char,
    formatJavaScript (formatJavaScript code) = formatJavaScript code
    ∧ formatJava (formatJava code) = formatJava code
    ∧ formatC (formatC code) = formatC code
    ∧ formatPython (formatPython code) = formatPython code := by
  intro code
  refine ⟨?_, ?_, ?_, ?_⟩
  · rw [formatJavaScript_eq_spec, formatJavaScript_eq_spec,
      specLineFormat_idem _ _ (by decide) (by decide)]
  · rw [formatJava_eq_spec, formatJava_eq_spec,
      specLineFormat_idem _ _ (by decide) (by decide)]
  · rw [formatC_eq_spec, formatC_eq_spec,
      specLineFormat_idem _ _ (by decide) (by decide)]
  · rw [formatPython_eq_spec, formatPython_eq_spec,
      specLineFormat_idem _ _ (by decide) (by decide)]

/-- Claim C8: a filename whose extension is outside the formatter map gets
the identity routine: every input is returned unchanged. -/
theorem claim_C8_identity_fallback : ∀ filename code : List Char,
    getExt filename ∉ [toL "js", toL "jsx", toL "ts", toL "tsx", toL "java",
      toL "py", toL "c", toL "cpp", toL "h", toL "hpp"] →
    getFormatter filename code = code := by
  intro filename code h
  obtain ⟨h1, h2, h3, h4, h5, h6, h7, h8, h9, h10⟩ :
      getExt filename ≠ toL "js" ∧ getExt filename ≠ toL "jsx"
      ∧ getExt filename ≠ toL "ts" ∧ getExt filename ≠ toL "tsx"
      ∧ getExt filename ≠ toL "java" ∧ getExt filename ≠ toL "py"
      ∧ getExt filename ≠ toL "c" ∧ getExt filename ≠ toL "cpp"
      ∧ getExt filename ≠ toL "h" ∧ getExt filename ≠ toL "hpp" := by
    simpa [not_or] using h
  have hlk : formattersLookup (getExt filename) = none := by
    simp [formattersLookup, h1, h2, h3, h4, h5, h6, h7, h8, h9, h10]
  rw [show getFormatter filename code
      = applyFmt ((formattersLookup (getExt filename)).getD FmtKind.identFmt) code from rfl,
    hlk]
  rfl

/-- Witness for claim C8: the `.go` extension is unmapped and a concrete
input passes through unchanged. -/
theorem claim_C8_witness :
    getFormatter (toL "main.go") (toL "  a \x7b\nb") = toL "  a \x7b\nb" :=
  claim_C8_identity_fallback (toL "main.go") (toL "  a \x7b\nb") (by decide)

/-- Claim C9 as stated is false: an identity-formatting extension such as
`.go` does not apply whitespace-trim and blank-line-removal; at the input
`"  x  \n\n y"` the formatted result differs from the trimmed-and-dropped
text. -/
theorem claim_C9_counterexample :
    ¬ (getFormatter (toL "a.go") (toL "  x  \n\n y")
        = trimDropOnly (toL "  x  \n\n y")) := by decide

/-- Claim C9 amended: for every filename with an identity-formatting
extension (one the formatter lookup does not map, so the identity fallback
is selected) and every input string, formatting returns the input
completely unchanged: no whitespace-trim, no blank-line removal, no
reindenting; `.go` and `.txt` are such extensions. -/
theorem claim_C9_amended :
    (∀ filename code : List Char,
      formattersLookup (getExt filename) = none →
      getFormatter filename code = code)
    ∧ formattersLookup (getExt (toL "a.go")) = none
    ∧ formattersLookup (getExt (toL "notes.txt")) = none := by
  refine ⟨?_, by decide, by decide⟩
  intro filename code h
  rw [show getFormatter filename code
      = applyFmt ((formattersLookup (getExt filename)).getD FmtKind.identFmt) code
      from rfl, h]
  rfl

/-- Witness for the amended claim C9: at the counterexample's own
filename and input, the identity fallback fires and the text passes
through untouched. -/
theorem claim_C9_amended_witness :
    getFormatter (toL "a.go") (toL "  x  \n\n y") = toL "  x  \n\n y" :=
  claim_C9_amended.1 (toL "a.go") (toL "  x  \n\n y") (by decide)

/-- Claim C4: records produced by the ingester have a non-empty path whose
final slash-separated segment is the record name; directory entries never
produce a record; the three-file example archive yields exactly three
records; a single non-ZIP upload yields one record with `path = name`. -/
theorem claim_C4_fileRecords :
    (∀ entries : List ZipEntry,
      (∀ e ∈ entries, e.dir = false → e.path ≠ []) →
      ∀ r ∈ formatCodeZip entries,
        r.path ≠ [] ∧ (r.path.splitOn '/').getLast? = some r.name
          ∧ ∃ e ∈ entries, e.dir = false ∧ r.path = e.path)
    ∧ (∀ (e : ZipEntry) (entries : List ZipEntry), e.dir = true →
        formatCodeZip (e :: entries) = formatCodeZip entries)
    ∧ (formatCodeZip exampleZipEntries).length = 3
    ∧ (∀ r ∈ formatCodeZip exampleZipEntries, r.path ≠ [])
    ∧ (∀ name content : List Char,
        ∃ r : FileInfo, formatCodeSingle name content = [r] ∧ r.path = r.name
          ∧ r.name = name) := by
  refine ⟨?_, ?_, by decide, by decide, ?_⟩
  · intro entries hpaths r hr
    rw [formatCodeZip, List.mem_map] at hr
    obtain ⟨e, he, rfl⟩ := hr
    rw [List.mem_filter] at he
    obtain ⟨hmem, hdir⟩ := he
    have hdir' : e.dir = false := by simpa using hdir
    have hpath : e.path ≠ [] := hpaths e hmem hdir'
    refine ⟨hpath, ?_, e, hmem, hdir', rfl⟩
    rcases hq : (e.path.splitOn '/').getLast? with _ | y
    · have : e.path.splitOn '/' = [] := List.getLast?_eq_none_iff.mp hq
      rw [List.splitOn] at this
      exact absurd this (List.splitOnP_ne_nil _ _)
    · show (e.path.splitOn '/').getLast?
        = some (((e.path.splitOn '/').getLast?).getD [])
      rw [hq]
      rfl
  · intro e entries hdir
    simp [formatCodeZip, hdir]
  · intro name content
    exact ⟨_, rfl, rfl, rfl⟩

/-- Witness for claim C4 at the example archive: the first record has a
non-empty path, its final segment is its name, and it stems from a
non-directory entry. -/
theorem claim_C4_witness :
    (zipEntryRecord (toL "src/a.py") (toL "print(1)")).path ≠ []
    ∧ ((zipEntryRecord (toL "src/a.py") (toL "print(1)")).path.splitOn '/').getLast?
        = some (zipEntryRecord (toL "src/a.py") (toL "print(1)")).name
    ∧ ∃ e ∈ exampleZipEntries, e.dir = false
        ∧ (zipEntryRecord (toL "src/a.py") (toL "print(1)")).path = e.path :=
  claim_C4_fileRecords.1 exampleZipEntries (by decide)
    (zipEntryRecord (toL "src/a.py") (toL "print(1)")) (by decide)

/-- The framework list is a selection from seven pairwise distinct labels,
so it never repeats a label. -/
theorem detectFrameworks_nodup (files : List FileInfo) :
    (detectFrameworks files).Nodup := by
  simp only [detectFrameworks]
  split <;> split <;> split <;> split <;> split <;> split <;> split <;> decide

/-- In a duplicate-free list every element occurs at most once. -/
theorem count_le_one_of_nodup {α : Type} [BEq α] [LawfulBEq α] :
    ∀ {l : List α}, l.Nodup → ∀ a, l.count a ≤ 1 := by
  intro l
  induction l with
  | nil => intro _ a; simp
  | cons x xs ih =>
      intro h a
      have hx : x ∉ xs := (List.nodup_cons.mp h).1
      have hxs := (List.nodup_cons.mp h).2
      rw [List.count_cons]
      by_cases hax : x = a
      · subst hax
        have h0 : xs.count x = 0 := List.count_eq_zero_of_not_mem hx
        simp [h0]
      · have hb : (x == a) = false := by simpa using hax
        simpa [hb] using ih hxs a

/-- In a duplicate-free list a member occurs exactly once. -/
theorem count_eq_one_of_nodup_mem {α : Type} [BEq α] [LawfulBEq α] {l : List α}
    (hnd : l.Nodup) {a : α} (ha : a ∈ l) : l.count a = 1 :=
  Nat.le_antisymm (count_le_one_of_nodup hnd a) (List.one_le_count_iff.mpr ha)

/-- Claim C5: `detectFrameworks` appends each label at most once; a
`package.json` whose content holds the literal quoted substring react
yields the React label exactly once however often the substring occurs;
a file list matching none of the seven signatures yields the empty list. -/
theorem claim_C5_detectFrameworks :
    (∀ (files : List FileInfo) (lbl : List Char),
        (detectFrameworks files).count lbl ≤ 1)
    ∧ (∀ (files : List FileInfo) (f : FileInfo),
        files.find? (fun f => f.name = toL "package.json") = some f →
        (toL "\"react\"") <:+: f.content →
        (detectFrameworks files).count (toL "React") = 1)
    ∧ (∀ files : List FileInfo,
        ¬ (toL "\"react\"") <:+: packageJsonContent files →
        ¬ (toL "\"vue\"") <:+: packageJsonContent files →
        ¬ (toL "\"@angular/core\"") <:+: packageJsonContent files →
        ¬ (toL "django") <:+: allContentLower files →
        ¬ (toL "flask") <:+: allContentLower files →
        ¬ (toL "express") <:+: allContentLower files →
        ¬ (toL "spring-boot") <:+: allContentLower files →
        detectFrameworks files = []) := by
  refine ⟨?_, ?_, ?_⟩
  · intro files lbl
    exact count_le_one_of_nodup (detectFrameworks_nodup files) lbl
  · intro files f hfind hreact
    have hpj : packageJsonContent files = f.content := by
      rw [packageJsonContent, hfind]
      rfl
    have hcond : (toL "\"react\"") <:+: packageJsonContent files := by
      rw [hpj]; exact hreact
    have hmem : toL "React" ∈ detectFrameworks files := by
      simp only [detectFrameworks]
      simp [hcond]
    exact count_eq_one_of_nodup_mem (detectFrameworks_nodup files) hmem
  · intro files h1 h2 h3 h4 h5 h6 h7
    simp only [detectFrameworks]
    rw [if_neg h1, if_neg h2, if_neg h3, if_neg h4, if_neg h5, if_neg h6, if_neg h7]
    rfl

/-- Witness for claim C5: the React label appears exactly once for a
`package.json` holding the react substring twice, and a plain file list
yields no frameworks. -/
theorem claim_C5_witness :
    (detectFrameworks [reactPackageJson]).count (toL "React") = 1
    ∧ detectFrameworks plainFiles = [] :=
  ⟨claim_C5_detectFrameworks.2.1 [reactPackageJson] reactPackageJson (by decide) (by decide),
   claim_C5_detectFrameworks.2.2 plainFiles (by decide) (by decide) (by decide)
     (by decide) (by decide) (by decide) (by decide)⟩

/-- A successful `findSome?` splits its list at the first element the
function succeeds on. -/
theorem findSome?_split {α β : Type} (g : α → Option β) :
    ∀ {l : List α} {b : β}, l.findSome? g = some b →
      ∃ l1 a l2, l = l1 ++ a :: l2 ∧ g a = some b ∧ ∀ x ∈ l1, g x = none := by
  intro l
  induction l with
  | nil =>
      intro b h
      rw [List.findSome?_nil] at h
      cases h
  | cons x xs ih =>
      intro b h
      rcases hx : g x with _ | y
      · rw [List.findSome?_cons_of_isNone xs (by rw [hx]; rfl)] at h
        obtain ⟨l1, a, l2, rfl, ha, hnone⟩ := ih h
        refine ⟨x :: l1, a, l2, rfl, ha, ?_⟩
        intro z hz
        rcases List.mem_cons.mp hz with rfl | hz'
        · exact hx
        · exact hnone z hz'
      · rw [List.findSome?_cons_of_isSome xs (by rw [hx]; rfl)] at h
        exact ⟨[], x, xs, rfl, h, fun z hz => absurd hz (List.not_mem_nil z)⟩

/-- Claim C6: `findMainFile` returns none exactly when no record name
lowercases to a pattern; a successful result is a record of the list whose
lowercased name equals some pattern such that every earlier pattern in the
fixed priority list matches no record; in particular a list holding
`main.py` and `app.py` yields the `main.py` record in either order. -/
theorem claim_C6_findMainFile :
    (∀ files : List FileInfo, findMainFile files = none ↔
        ∀ f ∈ files, f.name.map Char.toLower ∉ mainFilePatterns)
    ∧ (∀ (files : List FileInfo) (f : FileInfo), findMainFile files = some f →
        f ∈ files ∧ f.name.map Char.toLower ∈ mainFilePatterns
        ∧ ∃ ps1 pat ps2, mainFilePatterns = ps1 ++ pat :: ps2
            ∧ files.find? (fun g => g.name.map Char.toLower = pat) = some f
            ∧ ∀ q ∈ ps1, files.find? (fun g => g.name.map Char.toLower = q) = none)
    ∧ findMainFile [mainPyFile, appPyFile] = some mainPyFile
    ∧ findMainFile [appPyFile, mainPyFile] = some mainPyFile := by
  refine ⟨?_, ?_, by decide, by decide⟩
  · intro files
    rw [findMainFile, List.findSome?_eq_none_iff]
    constructor
    · intro h f hf hpat
      have h2 := h _ hpat
      rw [List.find?_eq_none] at h2
      exact h2 f hf (by simp)
    · intro h pat hpat
      rw [List.find?_eq_none]
      intro f hf hpred
      have hlow : f.name.map Char.toLower = pat := by simpa using hpred
      exact h f hf (by rw [hlow]; exact hpat)
  · intro files f h
    rw [findMainFile] at h
    obtain ⟨ps1, pat, ps2, hpats, hfind, hnone⟩ := findSome?_split _ h
    have hf1 : f ∈ files := List.mem_of_find?_eq_some hfind
    have hf2 : f.name.map Char.toLower = pat := by
      have := List.find?_some hfind
      simpa using this
    refine ⟨hf1, ?_, ps1, pat, ps2, hpats, hfind, hnone⟩
    rw [hf2, hpats]
    exact List.mem_append_right _ (List.mem_cons_self _ _)

/-- Witness for claim C6: the priority split at the concrete two-record
list in the order that puts `app.py` first. -/
theorem claim_C6_witness :
    mainPyFile ∈ [appPyFile, mainPyFile]
    ∧ mainPyFile.name.map Char.toLower ∈ mainFilePatterns
    ∧ ∃ ps1 pat ps2, mainFilePatterns = ps1 ++ pat :: ps2
        ∧ [appPyFile, mainPyFile].find? (fun g => g.name.map Char.toLower = pat)
            = some mainPyFile
        ∧ ∀ q ∈ ps1,
            [appPyFile, mainPyFile].find? (fun g => g.name.map Char.toLower = q) = none :=
  claim_C6_findMainFile.2.1 [appPyFile, mainPyFile] mainPyFile (by decide)

/-- Claim C7: documentation generation on zero files completes: the
per-label statistics breakdown is empty, the frameworks section is omitted
entirely, the main-entry-point slot reads the fixed no-entry sentence, and
the rendered README is still produced. -/
theorem claim_C7_empty_input :
    statsBreakdownMd [] = [] ∧ frameworksSectionMd [] = []
    ∧ mainEntrySectionMd [] = toL "No clear entry point detected."
    ∧ generateReadme [] ≠ [] :=
  ⟨by decide, by decide, by decide, by decide⟩

end Lintify
